import Mathlib

/-!
Verification of the GitHub-tree mirroring and path-deduplication subsystem of
the `mcpc` crawler (files `src/engine/crawler_engine.py`,
`src/engine/distributed_crawler.py`, `src/engine/source_downloader.py`).

The Python code is shallowly embedded as pure Lean functions:

* `splitSlash` / `joinSlash` model Python `str.split('/')` and `'/'.join`
  at the character-list level (`"".split('/') == ['']`, `"a/".split('/') ==
  ['a','']`, etc.).
* `normalizeEngine` embeds `DistributedCrawler._normalize_path` from
  `crawler_engine.py`; `normalizeDistributed` embeds the variant from
  `distributed_crawler.py`.
* The recursive directory walk of `crawler_engine.py::_fetch_page`
  (lines 118-250) is embedded as `walkItem`/`walkListing`/`fetchPageWalk`
  over an inductive remote tree, modelling the success path in which every
  HTTP request returns 200 with the listing recorded in the tree.
* The response-handling and exception-wrapping skeleton of `_fetch_page`
  (lines 79-116 and 252-253) is embedded separately as `fetchPageResp`,
  with a `process` parameter standing for the per-item processing
  (lines 118-248); `fetchPageWithRetry` embeds the bounded retry loop.
* `download_github_repo` and the per-source download loop of
  `source_downloader.py` are embedded in the final section.
-/

namespace Mcpc

/-! ## Path primitives: Python `str.split('/')`, `'/'.join`, `Path(...).parent` -/

/-- Python `s.split('/')` on the character list of `s`.  Like Python,
splitting the empty string yields `[[]]` (one empty field), and separators
at the ends produce empty fields. -/
def splitSlash : List Char → List (List Char)
  | [] => [[]]
  | c :: cs =>
    match splitSlash cs with
    | [] => [[]]
    | s :: ss => if c = '/' then [] :: s :: ss else (c :: s) :: ss

/-- Python `'/'.join` on character lists. -/
def joinSlash : List (List Char) → List Char
  | [] => []
  | [s] => s
  | s :: t :: ss => s ++ '/' :: joinSlash (t :: ss)

/-- Embeds `DistributedCrawler._normalize_path` from
`src/engine/crawler_engine.py` lines 262-269:
`parts = path.split('/'); if parts[0] == 'src': return '/'.join(parts[1:]);
return path`.  (`split` never returns an empty list, so the `[]` branch is
unreachable; it returns the path unchanged.) -/
def normalizeEngine (path : String) : String :=
  match splitSlash path.data with
  | [] => path
  | seg :: rest => if seg = "src".data then String.mk (joinSlash rest) else path

/-- Helper for `normalizeDistributed`: Python `path.startswith('src/')`,
returning the remainder `path[4:]` on success. -/
def srcSlashTail : List Char → Option (List Char)
  | 's' :: 'r' :: 'c' :: '/' :: rest => some rest
  | _ => none

/-- Embeds `DistributedCrawler._normalize_path` from
`src/engine/distributed_crawler.py` lines 190-200:
`if path.startswith('src/'): return path[4:]; return path`. -/
def normalizeDistributed (path : String) : String :=
  match srcSlashTail path.data with
  | some rest => String.mk rest
  | none => path

/-- Modelled from the spec (§4.1): "if the path's first `/`-delimited segment
equals a configured root marker (e.g. `"src"`), drop that segment and rejoin
the remainder; otherwise return the path unchanged", with the empty
remainder (the bare root) mapping to the empty string.  This is the
reference rule both `_normalize_path` variants are claimed to satisfy. -/
def normalizeSpecRule (marker : String) (path : String) : String :=
  match splitSlash path.data with
  | [] => path
  | seg :: rest => if seg = marker.data then String.mk (joinSlash rest) else path

/-- Python `str(Path(p).parent)` for the relative, slash-separated paths the
crawler manipulates: drop the last `/`-segment, giving `"."` when there is
at most one segment (this matches `pathlib` on slash-clean relative paths,
the only ones the walk produces). -/
def pyPathParent (p : String) : String :=
  match splitSlash p.data with
  | [] => "."
  | [_] => "."
  | s :: t :: ss => String.mk (joinSlash ((s :: t :: ss).dropLast))

/-- Embeds `crawler_engine.py` lines 138-140:
`parent_path = str(Path(normalized_path).parent); if parent_path == '.':
parent_path = ''`. -/
def loopParentPath (np : String) : String :=
  let pp := pyPathParent np
  if pp = "." then "" else pp

/-- `pathlib` joining relative parts, where an empty component is ignored
(`Path('out') / '' / 'x' == Path('out/x')`). -/
def joinPath (a b : String) : String :=
  if a = "" then b else if b = "" then a else a ++ "/" ++ b

/-- Python `path.split('/')[-1]` (the last segment; `split` is never empty,
so the default is unreachable). -/
def lastSeg (p : String) : String :=
  String.mk ((splitSlash p.data).getLastD [])

/-! ## The remote tree and the directory walk of `crawler_engine.py::_fetch_page`

The walk model covers lines 118-250 of `crawler_engine.py` on the success
path: every directory-listing request returns HTTP 200 whose decoded items
are recorded in the `RawItem` tree (a `dir` item's `children` are what
fetching its `url` yields), and every file-content download succeeds with
the item's `content`.  Authentication headers and URLs play no role on this
path and are omitted; `last_updated` (wall-clock) is likewise omitted. -/

/-- One decoded item of a directory listing, together with the listing its
`url` field resolves to (`children`, meaningful for directories). -/
inductive RawItem where
  | mk (type name path content : String) (size : Nat) (children : List RawItem)
deriving Repr

def RawItem.type : RawItem → String
  | .mk t _ _ _ _ _ => t

def RawItem.name : RawItem → String
  | .mk _ n _ _ _ _ => n

def RawItem.path : RawItem → String
  | .mk _ _ p _ _ _ => p

def RawItem.content : RawItem → String
  | .mk _ _ _ c _ _ => c

def RawItem.size : RawItem → Nat
  | .mk _ _ _ _ s _ => s

def RawItem.children : RawItem → List RawItem
  | .mk _ _ _ _ _ cs => cs

/-- A parsed item as built in `_fetch_page` lines 106-116: the `type` field
is collapsed to `'file'`/`'dir'` (`'file' if item.get('type') == 'file' else
'dir'`); `download_url`/`url` are omitted (they are resolved through the
`RawItem` tree in this model). -/
structure Item where
  type : String
  name : String
  path : String
  size : Nat
deriving DecidableEq, Repr

def parseItem (r : RawItem) : Item :=
  { type := if r.type = "file" then "file" else "dir"
    name := r.name
    path := r.path
    size := r.size }

/-- A `{name, path, size}` record of `files` / `current_dir_files`. -/
structure FileRec where
  name : String
  path : String
  size : Nat
deriving DecidableEq, Repr

/-- The persisted per-directory metadata dict (lines 199-213 and 228-242),
minus the wall-clock `last_updated` field and the constant `'type':
'directory'` tag. -/
structure Metadata where
  name : String
  path : String
  url : String
  files : List FileRec
  parent_directory : Option String
  subdirectories : List String
  total_files : Nat
  total_size : Nat
deriving DecidableEq, Repr

/-- Diagnostic events of one crawl session, used to state the
deduplication claims (which entries were processed, skipped, fetched,
written). -/
inductive Ev where
  | processed (np : String)
  | skipped (np : String)
  | fetchedDir (np : String)
  | wroteFile (np : String)
deriving DecidableEq, Repr

/-- The crawler's session state: `processed_dirs` (the visited set, kept
here as a list in insertion order so that "visited strictly before" is
expressible; membership is what the code tests), `dir_parents` (a Python
dict in insertion order), plus logs of the file writes and metadata writes
performed (paths are relative to the output root) and the event trace. -/
structure CrawlState where
  processed_dirs : List String
  dir_parents : List (String × String)
  fileWrites : List (String × String)
  metaWrites : List (String × Metadata)
  events : List Ev
deriving DecidableEq, Repr

def initState : CrawlState :=
  { processed_dirs := [], dir_parents := [], fileWrites := [], metaWrites := [], events := [] }

/-- `[child for child, parent in self.dir_parents.items() if parent == p]`
(insertion order, as for a Python dict). -/
def childrenOf (dp : List (String × String)) (p : String) : List String :=
  (dp.filter (fun cp => cp.2 = p)).map (fun cp => cp.1)

def urlStem : String := "https://github.com/modelcontextprotocol/servers/tree/main/src/"

def metaFileSuffix : String := ".modelcontextprotocol.io.json"

/-- The metadata dict built for a `dir` item (lines 199-213), from the
items `dir_items` returned by the recursive fetch of that directory. -/
def dirMetadata (itemName itemPath np parentPath : String) (dirItems : List Item)
    (dp : List (String × String)) : Metadata :=
  let files := (dirItems.filter (fun f => f.type = "file")).map
    (fun f => { name := f.name, path := normalizeEngine f.path, size := f.size : FileRec })
  { name := itemName
    path := np
    url := urlStem ++ itemPath
    files := files
    parent_directory := if parentPath = "" then none else some parentPath
    subdirectories := childrenOf dp np
    total_files := files.length
    total_size := (files.map (fun f => f.size)).sum }

/-- The metadata dict built for the current directory from
`current_dir_files` (lines 228-242).  Note line 233 stores
`str(Path(ncp).parent)` without the `'.' -> ''` adjustment used in the
entry loop. -/
def currentDirMetadata (currentPath : String) (cdf : List FileRec)
    (dp : List (String × String)) : Metadata :=
  let currentDirName := lastSeg currentPath
  let ncp := normalizeEngine currentPath
  { name := currentDirName
    path := ncp
    url := urlStem ++ currentPath
    files := cdf
    parent_directory := if ncp = "" then none else some (pyPathParent ncp)
    subdirectories := childrenOf dp ncp
    total_files := cdf.length
    total_size := (cdf.map (fun f => f.size)).sum }

/-- The relative path `output_dir / normalized_current_path /
f"{current_dir_name}.modelcontextprotocol.io.json"` (line 244). -/
def currentDirMetaPath (currentPath : String) : String :=
  joinPath (normalizeEngine currentPath) (lastSeg currentPath ++ metaFileSuffix)

mutual

/-- One iteration of the `for item in items` loop of `_fetch_page`
(lines 132-222).  `currentPath` is the enclosing `current_path`, `acc` the
`current_dir_files` accumulator.  The `dir` branch inlines the recursive
`_fetch_page` call on the subdirectory (its entry loop, then its
`current_dir_files` metadata write, then the returned parsed items), as in
the source at lines 181 and 225-248. -/
def walkItem (_currentPath : String) (r : RawItem) (st : CrawlState)
    (acc : List FileRec) : CrawlState × List FileRec :=
  match r with
  | .mk rtype rname rpath rcontent rsize rchildren =>
    let itemPath := rpath
    let np := normalizeEngine itemPath
    let parentPath := loopParentPath np
    if np ∈ st.processed_dirs then
      ({ st with events := st.events ++ [Ev.skipped np] }, acc)
    else
      let st1 := { st with processed_dirs := st.processed_dirs ++ [np],
                           events := st.events ++ [Ev.processed np] }
      if (if rtype = "file" then "file" else "dir") = "file" then
        let st2 := { st1 with fileWrites := st1.fileWrites ++ [(np, rcontent)],
                              events := st1.events ++ [Ev.wroteFile np] }
        (st2, acc ++ [{ name := rname, path := np, size := rsize }])
      else
        let st2 := { st1 with dir_parents := st1.dir_parents ++ [(np, parentPath)],
                              events := st1.events ++ [Ev.fetchedDir np] }
        let res := walkListing itemPath rchildren st2 []
        let stA := res.1
        let cdfChild := res.2
        let stB := { stA with metaWrites := stA.metaWrites ++
                  (if cdfChild.isEmpty then []
                   else [(currentDirMetaPath itemPath, currentDirMetadata itemPath cdfChild stA.dir_parents)]) }
        let dirItems := rchildren.map parseItem
        let meta := dirMetadata rname itemPath np parentPath dirItems stB.dir_parents
        let stC := { stB with metaWrites := stB.metaWrites ++
                  [(joinPath np (rname ++ metaFileSuffix), meta)] }
        (stC, acc)

/-- The `for item in items` loop over a whole listing. -/
def walkListing (currentPath : String) (items : List RawItem) (st : CrawlState)
    (acc : List FileRec) : CrawlState × List FileRec :=
  match items with
  | [] => (st, acc)
  | r :: rest =>
    let res := walkItem currentPath r st acc
    walkListing currentPath rest res.1 res.2

end

/-- `_fetch_page` on a directory listing (success path): run the entry loop,
then persist the current directory's metadata if it collected files
(lines 225-248), and return the parsed items (line 250). -/
def fetchPageWalk (currentPath : String) (listing : List RawItem)
    (st : CrawlState) : CrawlState × List Item :=
  let res := walkListing currentPath listing st []
  let st1 := res.1
  let cdf := res.2
  let st2 := { st1 with metaWrites := st1.metaWrites ++
    (if cdf.isEmpty then []
     else [(currentDirMetaPath currentPath, currentDirMetadata currentPath cdf st1.dir_parents)]) }
  (st2, listing.map parseItem)

/-! ## Response handling, exception wrapping and the retry loop

`fetchPageResp` embeds the response-handling skeleton of `_fetch_page`
(`crawler_engine.py` lines 79-116, 250 and the blanket
`except Exception as e: raise CrawlExhausted(...)` at lines 252-253).
The decoded JSON body is modelled by `Json`, Python exceptions by `PyExc`,
and the per-item processing of lines 118-248 by an oracle `process`
(any exception it raises is caught by the same blanket handler). -/

/-- A decoded JSON value (`response.json()`). -/
inductive Json where
  | null
  | bool (b : Bool)
  | num (n : Int)
  | str (s : String)
  | arr (elems : List Json)
  | obj (fields : List (String × Json))

/-- Python truthiness of a decoded JSON value (`if not data`). -/
def Json.truthy : Json → Bool
  | .null => false
  | .bool b => b
  | .num n => n ≠ 0
  | .str s => s ≠ ""
  | .arr elems => ¬ elems.isEmpty
  | .obj fields => ¬ fields.isEmpty

/-- The Python exceptions that can arise in `_fetch_page`:
`CrawlExhausted`, `requests` HTTP errors from `raise_for_status`, the
`json` decode error, and `TypeError` (e.g. iterating a non-iterable).
`netError` stands for any other exception out of `session.get`. -/
inductive PyExc where
  | crawlExhausted (msg : String)
  | httpError (status : Nat)
  | jsonDecodeError
  | typeError
  | netError (msg : String)
deriving DecidableEq, Repr

def PyExc.isCrawlExhausted : PyExc → Bool
  | .crawlExhausted _ => true
  | _ => false

/-- Python `str(e)` for the exceptions above (message texts as produced by
the corresponding libraries; only their identity matters here). -/
def excMessage : PyExc → String
  | .crawlExhausted m => m
  | .httpError s => "HTTP Error " ++ toString s
  | .jsonDecodeError => "Expecting value: line 1 column 1 (char 0)"
  | .typeError => "object is not iterable"
  | .netError m => m

/-- An HTTP response: its status code and the result of `response.json()`
(`Except.error ()` models a `json.JSONDecodeError`). -/
structure Response where
  status : Nat
  body : Except Unit Json

/-- Python `for item in data` for a decoded JSON value: lists iterate their
elements, dicts their keys, strings their characters; other values raise
`TypeError`. -/
def pyIter : Json → Except PyExc (List Json)
  | .arr elems => .ok elems
  | .obj fields => .ok (fields.map (fun f => Json.str f.1))
  | .str s => .ok (s.data.map (fun c => Json.str (String.mk [c])))
  | _ => .error .typeError

/-- Python `dict.get` on a decoded JSON object. -/
def jget (fields : List (String × Json)) (k : String) : Option Json :=
  (fields.find? (fun f => f.1 = k)).map (fun f => f.2)

/-- An item as built by lines 108-116 from one JSON element:
`'file' if item.get('type') == 'file' else 'dir'`, the raw field values
of `name`/`path`/`download_url`/`url` (possibly `None`), and
`item.get('size', 0)`. -/
structure RespItem where
  type : String
  name : Option Json
  path : Option Json
  download_url : Option Json
  url : Option Json
  size : Json

/-- Python `item.get('type') == 'file'`: the optional JSON value equals the
given string. -/
def optJsonIsStr (j : Option Json) (s : String) : Bool :=
  match j with
  | some (.str t) => t = s
  | _ => false

def parseRespItem (fields : List (String × Json)) : RespItem :=
  { type := if optJsonIsStr (jget fields "type") "file" then "file" else "dir"
    name := jget fields "name"
    path := jget fields "path"
    download_url := jget fields "download_url"
    url := jget fields "url"
    size := (jget fields "size").getD (Json.num 0) }

/-- Lines 106-116: `items = []; for item in data: if isinstance(item, dict):
items.append({...})` — non-dict elements are silently dropped. -/
def parseRespItems (elems : List Json) : List RespItem :=
  elems.filterMap (fun e =>
    match e with
    | .obj fields => some (parseRespItem fields)
    | _ => none)

/-- Lines 252-253: `except Exception as e: raise CrawlExhausted(f"抓取失败:
{str(e)}")` — every exception escaping the body is re-raised as
`CrawlExhausted`. -/
def wrapExhausted {α : Type} : Except PyExc α → Except PyExc α
  | .error e => .error (.crawlExhausted ("抓取失败: " ++ excMessage e))
  | .ok v => .ok v

/-- The body of `_fetch_page` (lines 80-116, 250): take the result of
`session.get` (`netResp`, `.error` when the request itself raised), raise
`CrawlExhausted` on status 403, `raise_for_status` for statuses >= 400,
decode the body, return the empty sentinel `none` for a falsy payload,
iterate and parse the items, run the per-item processing, and return the
parsed items. -/
def fetchPageBody (netResp : Except PyExc Response)
    (process : List RespItem → Except PyExc Unit) :
    Except PyExc (Option (List RespItem)) :=
  match netResp with
  | .error e => .error e
  | .ok resp =>
    if resp.status = 403 then .error (.crawlExhausted "GitHub API速率限制")
    else if 400 ≤ resp.status then .error (.httpError resp.status)
    else
      match resp.body with
      | .error _ => .error .jsonDecodeError
      | .ok data =>
        if ¬ data.truthy then .ok none
        else
          match pyIter data with
          | .error e => .error e
          | .ok elems =>
            let items := parseRespItems elems
            match process items with
            | .error e => .error e
            | .ok _ => .ok (some items)

/-- `_fetch_page` = its body wrapped by the blanket `except` handler. -/
def fetchPageResp (netResp : Except PyExc Response)
    (process : List RespItem → Except PyExc Unit) :
    Except PyExc (Option (List RespItem)) :=
  wrapExhausted (fetchPageBody netResp process)

/-- The `error_handling` sub-dict of a site config. -/
structure ErrorHandlingCfg where
  max_retries : Option Nat
  retry_delay : Option Nat
deriving DecidableEq, Repr

/-- `site_config.get('error_handling', {}).get('max_retries', 3)`. -/
def getMaxRetries (cfg : Option ErrorHandlingCfg) : Nat :=
  ((cfg.map (fun c => c.max_retries)).join).getD 3

/-- `site_config.get('error_handling', {}).get('retry_delay', 5)`. -/
def getRetryDelay (cfg : Option ErrorHandlingCfg) : Nat :=
  ((cfg.map (fun c => c.retry_delay)).join).getD 5

/-- The loop body of `_fetch_page_with_retry` (`crawler_engine.py`
lines 69-77), iterating over the remaining attempt indices of
`range(max_retries)`.  `fetch n` is the outcome of the `n`-th invocation of
`self._fetch_page(site_config)`.  Returns the final outcome (`none` when
`max_retries = 0` and the loop body never runs, i.e. Python falls through
returning `None`), the number of fetch invocations, and the list of sleep
durations performed (`time.sleep(retry_delay)` between consecutive
attempts).  `attempt < max_retries - 1` holds exactly when further attempt
indices remain. -/
def retryGo {α : Type} (fetch : Nat → Except PyExc α) (delay : Nat) :
    List Nat → Option (Except PyExc α) × Nat × List Nat
  | [] => (none, 0, [])
  | attempt :: rest =>
    match fetch attempt with
    | .ok v => (some (.ok v), 1, [])
    | .error e =>
      match rest with
      | [] => (some (.error e), 1, [])
      | r :: rs =>
        let res := retryGo fetch delay (r :: rs)
        (res.1, res.2.1 + 1, delay :: res.2.2)

/-- `_fetch_page_with_retry` (lines 65-77): read the retry policy from the
config and run the loop over `range(max_retries)`. -/
def fetchPageWithRetry {α : Type} (cfg : Option ErrorHandlingCfg)
    (fetch : Nat → Except PyExc α) : Option (Except PyExc α) × Nat × List Nat :=
  retryGo fetch (getRetryDelay cfg) (List.range (getMaxRetries cfg))

/-! ## `source_downloader.py`: token guard and the per-source loop -/

/-- Python falsiness of `self.github_token` (`os.getenv` returns `None`
when unset; the empty string is falsy as well). -/
def tokenFalsy : Option String → Bool
  | none => true
  | some s => s = ""

/-- Lines 81-84 of `crawler_engine.py`: the `Authorization` header is added
only when the configured environment variable resolves to a truthy token. -/
def applyAuthHeader (headers : List (String × String)) (tok : Option String) :
    List (String × String) :=
  match tok with
  | some t => if t = "" then headers else headers ++ [("Authorization", "Bearer " ++ t)]
  | none => headers

/-- A node of a GitHub repository tree as served by the contents API, used
by `download_dir` in `source_downloader.py`: a file (with the bytes served
by its `download_url`) or a directory (with the listing served by its
`url`). -/
inductive GhEntry where
  | file (name : String) (content : String)
  | dir (name : String) (entries : List GhEntry)
deriving Repr

mutual

/-- `download_dir` of `source_downloader.py` (lines 59-85), success path of
the network: returns the files written (relative path, content) and the
number of HTTP requests issued (one per directory listing, one per file
download). -/
def downloadDir (prefixDir : String) (entries : List GhEntry) : List (String × String) × Nat :=
  downloadEntries prefixDir entries

def downloadEntries (prefixDir : String) (entries : List GhEntry) :
    List (String × String) × Nat :=
  match entries with
  | [] => ([], 0)
  | .file name content :: rest =>
    let res := downloadEntries prefixDir rest
    ((joinPath prefixDir name, content) :: res.1, res.2 + 1)
  | .dir name sub :: rest =>
    let subRes := downloadEntries (joinPath prefixDir name) sub
    let res := downloadEntries prefixDir rest
    (subRes.1 ++ res.1, subRes.2 + 1 + res.2)

end

/-- `SourceDownloader.extract_github_repo_info` (lines 22-37):
`urlparse(url).netloc` must be `github.com` and the path must match
`^/([^/]+)/([^/]+)`; a trailing `.git` is stripped from the repo name.
The URL is taken as `scheme://netloc/segment/segment/...`. -/
def extractGithubRepoInfo (url : String) : Option (String × String) :=
  match url.splitOn "://" with
  | [_, rest] =>
    match (splitSlash rest.data).map String.mk with
    | netloc :: owner :: repo :: _ =>
      if netloc = "github.com" ∧ owner ≠ "" ∧ repo ≠ "" then
        some (owner, if repo.endsWith ".git" then repo.dropRight 4 else repo)
      else none
    | _ => none
  | _ => none

/-- `SourceDownloader.download_github_repo` (lines 39-95): when the token
is falsy the download is skipped with a failure indication before any
network access; otherwise the repo info is extracted and the tree fetched
via `download_dir` (`tree` is the listing the contents API serves for the
repository root; success path of the network).  Returns (success, files
written, number of HTTP requests issued). -/
def downloadGithubRepo (token : Option String) (repoUrl : String)
    (tree : List GhEntry) : Bool × List (String × String) × Nat :=
  if tokenFalsy token then
    (false, [], 0)
  else
    match extractGithubRepoInfo repoUrl with
    | none => (false, [], 0)
    | some _ =>
      let res := downloadDir "" tree
      (true, res.1, res.2 + 1)

/-- One server entry of a metadata file (`download_sources_for_data_source`,
lines 138-172). -/
structure Server where
  name : String
  github_url : String
deriving DecidableEq, Repr

/-- The counters of `download_sources_for_data_source`. -/
structure DlCounts where
  success : Nat
  skip : Nat
  error : Nat
deriving DecidableEq, Repr

/-- The per-server loop of `download_sources_for_data_source`
(lines 138-172): servers without a GitHub URL are skipped, servers whose
directory already holds files are skipped, otherwise the download is
attempted and counted as success or error; the loop always continues to
the next server.  `existing s` models `server_dir.exists() and
any(server_dir.iterdir())`; `trees u` the repository tree behind URL `u`. -/
def downloadSourcesLoop (token : Option String) (servers : List Server)
    (existing : String → Bool) (trees : String → List GhEntry) : DlCounts :=
  match servers with
  | [] => { success := 0, skip := 0, error := 0 }
  | s :: rest =>
    let c := downloadSourcesLoop token rest existing trees
    if s.github_url = "" then
      { c with skip := c.skip + 1 }
    else if existing s.name then
      { c with skip := c.skip + 1 }
    else
      let res := downloadGithubRepo token s.github_url (trees s.github_url)
      if res.1 then { c with success := c.success + 1 }
      else { c with error := c.error + 1 }

/-! ## Lemmas about `split('/')` and `'/'.join` -/

theorem mk_data (s : String) : String.mk s.data = s := by
  cases s
  rfl

theorem splitSlash_ne_nil (l : List Char) : splitSlash l ≠ [] := by
  cases l with
  | nil => simp [splitSlash]
  | cons c cs =>
    simp only [splitSlash]
    cases h : splitSlash cs with
    | nil => simp
    | cons s ss => by_cases hc : c = '/' <;> simp [hc]

theorem splitSlash_append (xs ys : List Char) :
    splitSlash (xs ++ '/' :: ys) = splitSlash xs ++ splitSlash ys := by
  induction xs with
  | nil =>
    cases h : splitSlash ys with
    | nil => exact absurd h (splitSlash_ne_nil ys)
    | cons s ss => simp [splitSlash, h]
  | cons c cs ih =>
    cases h : splitSlash cs with
    | nil => exact absurd h (splitSlash_ne_nil cs)
    | cons s ss =>
      simp only [List.cons_append, splitSlash, ih, h, List.append_eq]
      by_cases hc : c = '/' <;> simp [hc]

theorem splitSlash_no_slash (l : List Char) (h : ∀ c ∈ l, c ≠ '/') :
    splitSlash l = [l] := by
  induction l with
  | nil => rfl
  | cons c cs ih =>
    have hc : c ≠ '/' := h c (by simp)
    have hrest : splitSlash cs = [cs] := ih (fun x hx => h x (by simp [hx]))
    simp [splitSlash, hrest, hc]

theorem mem_splitSlash_no_slash (l : List Char) (s : List Char)
    (hs : s ∈ splitSlash l) : ∀ c ∈ s, c ≠ '/' := by
  induction l generalizing s with
  | nil =>
    simp [splitSlash] at hs
    simp [hs]
  | cons c cs ih =>
    simp only [splitSlash] at hs
    cases h : splitSlash cs with
    | nil => exact absurd h (splitSlash_ne_nil cs)
    | cons t ts =>
      rw [h] at hs
      by_cases hc : c = '/'
      · simp [hc] at hs
        rcases hs with hs | hs | hs
        · simp [hs]
        · exact ih s (by rw [h, hs]; simp)
        · exact ih s (by rw [h]; simp [hs])
      · simp [hc] at hs
        rcases hs with hs | hs
        · intro x hx
          rw [hs] at hx
          rcases List.mem_cons.mp hx with hx | hx
          · rw [hx]; exact hc
          · exact ih t (by rw [h]; simp) x hx
        · exact ih s (by rw [h]; simp [hs])

theorem joinSlash_splitSlash (l : List Char) : joinSlash (splitSlash l) = l := by
  induction l with
  | nil => rfl
  | cons c cs ih =>
    simp only [splitSlash]
    cases h : splitSlash cs with
    | nil => exact absurd h (splitSlash_ne_nil cs)
    | cons s ss =>
      rw [h] at ih
      by_cases hc : c = '/'
      · simp only [if_pos hc, joinSlash, ih, hc]
        simp
      · simp only [if_neg hc]
        cases ss with
        | nil => simp only [joinSlash] at ih ⊢; rw [ih]
        | cons t ts =>
          simp only [joinSlash] at ih ⊢
          rw [List.cons_append, ih]

theorem splitSlash_joinSlash (L : List (List Char)) (hne : L ≠ [])
    (hfree : ∀ s ∈ L, ∀ c ∈ s, c ≠ '/') : splitSlash (joinSlash L) = L := by
  induction L with
  | nil => exact absurd rfl hne
  | cons s L' ih =>
    cases L' with
    | nil =>
      simp only [joinSlash]
      exact splitSlash_no_slash s (hfree s (by simp))
    | cons t ts =>
      have hs : splitSlash s = [s] := splitSlash_no_slash s (hfree s (by simp))
      have hrec : splitSlash (joinSlash (t :: ts)) = t :: ts :=
        ih (by simp) (fun x hx => hfree x (by simp [hx]))
      simp only [joinSlash, splitSlash_append, hs, hrec]
      rfl

theorem joinSlash_concat (L : List (List Char)) (s : List Char) (hne : L ≠ []) :
    joinSlash (L ++ [s]) = joinSlash L ++ '/' :: s := by
  induction L with
  | nil => exact absurd rfl hne
  | cons x L' ih =>
    cases L' with
    | nil => simp [joinSlash]
    | cons y ts =>
      have h2 := ih (by simp)
      simp only [List.cons_append] at h2 ⊢
      simp only [joinSlash, h2, List.append_assoc, List.cons_append]

/-! ## Lemmas about the path normalizers -/

theorem src_data : "src".data = ['s', 'r', 'c'] := rfl

theorem splitSlash_src : splitSlash "src".data = ["src".data] := rfl

/-- `Path(v).parent` when `v` splits into at least two segments: drop the
last one. -/
theorem pyPathParent_of_concat (v : String) (L : List (List Char)) (x : List Char)
    (h : splitSlash v.data = L ++ [x]) (hL : L ≠ []) :
    pyPathParent v = String.mk (joinSlash L) := by
  cases L with
  | nil => exact absurd rfl hL
  | cons a L' =>
    cases L' with
    | nil => simp [pyPathParent, h, joinSlash]
    | cons b L'' =>
      have h' : splitSlash v.data = a :: b :: (L'' ++ [x]) := by simpa using h
      have hdl : (a :: b :: (L'' ++ [x])).dropLast = a :: b :: L'' := by
        have : (a :: b :: L'') ++ [x] = a :: b :: (L'' ++ [x]) := by simp
        rw [← this, List.dropLast_concat]
      simp [pyPathParent, h', hdl]

/-- Single-segment paths have parent `"."`, hence loop parent `""`. -/
theorem loopParentPath_single (v : String) (hv : splitSlash v.data = [v.data]) :
    loopParentPath v = "" := by
  simp [loopParentPath, pyPathParent, hv]

/-- The string data of `joinPath P name` for nonempty components. -/
theorem joinPath_data (P name : String) (hP : P ≠ "") (hn : name ≠ "") :
    (joinPath P name).data = P.data ++ '/' :: name.data := by
  simp [joinPath, hP, hn, String.data_append]

theorem loopParentPath_eq (np : String) :
    loopParentPath np = if pyPathParent np = "." then "" else pyPathParent np := rfl

/-- `normalizeEngine` evaluated through an explicit `split` result. -/
theorem normalizeEngine_eval (s : String) (seg : List Char) (rest : List (List Char))
    (h : splitSlash s.data = seg :: rest) :
    normalizeEngine s =
      (if seg = "src".data then String.mk (joinSlash rest) else s) := by
  simp [normalizeEngine, h]

/-- The key step for the parent-before-child invariant: for a well-formed
entry (raw path = `joinPath P name` with a slash-free, nonempty `name`),
the `parent_path` the loop computes for the entry's normalized path is
either `""` or exactly the normalized path of the enclosing directory. -/
theorem loopParentPath_join (P name : String) (hn : name ≠ "")
    (hfree : ∀ c ∈ name.data, c ≠ '/') :
    loopParentPath (normalizeEngine (joinPath P name)) = "" ∨
    loopParentPath (normalizeEngine (joinPath P name)) = normalizeEngine P := by
  have hnsplit : splitSlash name.data = [name.data] := splitSlash_no_slash _ hfree
  by_cases hP : P = ""
  · -- joinPath "" name = name
    left
    have hj : joinPath P name = name := by simp [joinPath, hP]
    rw [hj]
    by_cases hsrc : name.data = "src".data
    · have : normalizeEngine name = String.mk (joinSlash []) :=
        (normalizeEngine_eval name _ _ (by rw [hnsplit, hsrc])).trans (by simp)
      rw [this]
      exact loopParentPath_single _ (by rfl)
    · have : normalizeEngine name = name := by
        rw [normalizeEngine_eval name _ _ hnsplit]
        simp [hsrc]
      rw [this]
      exact loopParentPath_single _ hnsplit
  · -- joinPath P name = P ++ "/" ++ name
    have hdata : (joinPath P name).data = P.data ++ '/' :: name.data :=
      joinPath_data P name hP hn
    have hsplit : splitSlash (joinPath P name).data = splitSlash P.data ++ [name.data] := by
      rw [hdata, splitSlash_append, hnsplit]
    cases hPs : splitSlash P.data with
    | nil => exact absurd hPs (splitSlash_ne_nil _)
    | cons p0 ps =>
      have hsplit' : splitSlash (joinPath P name).data = p0 :: (ps ++ [name.data]) := by
        rw [hsplit, hPs]; simp
      by_cases hsrc : p0 = "src".data
      · -- the first segment of P (and of the joined path) is `src`
        have hvalP : normalizeEngine P = String.mk (joinSlash ps) := by
          rw [normalizeEngine_eval P _ _ hPs]; simp [hsrc]
        have hvalJ : normalizeEngine (joinPath P name) = String.mk (joinSlash (ps ++ [name.data])) := by
          rw [normalizeEngine_eval _ _ _ hsplit']; simp [hsrc]
        cases hps : ps with
        | nil =>
          left
          rw [hvalJ, hps]
          refine loopParentPath_single _ ?_
          simp [joinSlash]
          exact hnsplit
        | cons q qs =>
          have hfreeSegs : ∀ s ∈ (q :: qs) ++ [name.data], ∀ c ∈ s, c ≠ '/' := by
            intro s hs
            rcases List.mem_append.mp hs with hs | hs
            · exact mem_splitSlash_no_slash P.data s (by rw [hPs, hps]; simp [hs])
            · simp at hs; rw [hs]; exact hfree
          have hsplitJ : splitSlash (String.mk (joinSlash ((q :: qs) ++ [name.data]))).data
              = (q :: qs) ++ [name.data] := by
            exact splitSlash_joinSlash _ (by simp) hfreeSegs
          have hpar : pyPathParent (String.mk (joinSlash ((q :: qs) ++ [name.data])))
              = String.mk (joinSlash (q :: qs)) :=
            pyPathParent_of_concat _ _ _ hsplitJ (by simp)
          rw [hvalJ, hps]
          by_cases hdot : pyPathParent (String.mk (joinSlash ((q :: qs) ++ [name.data]))) = "."
          · left; rw [loopParentPath_eq, if_pos hdot]
          · right
            rw [hvalP, hps, loopParentPath_eq, if_neg hdot]
            exact hpar
      · -- the joined path keeps its first segment; both normalizers are the identity
        have hvalP : normalizeEngine P = P := by
          rw [normalizeEngine_eval P _ _ hPs]; simp [hsrc]
        have hvalJ : normalizeEngine (joinPath P name) = joinPath P name := by
          rw [normalizeEngine_eval _ _ _ hsplit']; simp [hsrc]
        have hpar : pyPathParent (joinPath P name) = String.mk (joinSlash (p0 :: ps)) := by
          refine pyPathParent_of_concat _ (p0 :: ps) name.data ?_ (by simp)
          rw [hsplit, hPs]
        have hparP : pyPathParent (joinPath P name) = P := by
          rw [hpar, ← hPs, joinSlash_splitSlash, mk_data]
        rw [hvalJ]
        by_cases hdot : pyPathParent (joinPath P name) = "."
        · left; rw [loopParentPath_eq, if_pos hdot]
        · right
          rw [hvalP, loopParentPath_eq, if_neg hdot]
          exact hparP

/-- The engine normalizer implements the spec rule with marker `"src"`
definitionally. -/
theorem normalizeEngine_eq_specRule (s : String) :
    normalizeEngine s = normalizeSpecRule "src" s := rfl

/-- The distributed-crawler normalizer agrees with the spec rule on every
path other than the bare marker `"src"`. -/
theorem normalizeDistributed_eq_specRule (s : String) (hs : s ≠ "src") :
    normalizeDistributed s = normalizeSpecRule "src" s := by
  cases h : srcSlashTail s.data with
  | some rest =>
    have hdata : s.data = 's' :: 'r' :: 'c' :: '/' :: rest := by
      unfold srcSlashTail at h
      split at h
      · rename_i heq
        cases h
        exact heq
      · cases h
    have hdata' : s.data = "src".data ++ '/' :: rest := by rw [hdata]; rfl
    have hsplit : splitSlash s.data = "src".data :: splitSlash rest := by
      rw [hdata', splitSlash_append, splitSlash_src]; rfl
    have hspec : normalizeSpecRule "src" s = String.mk (joinSlash (splitSlash rest)) := by
      simp [normalizeSpecRule, hsplit]
    rw [hspec, joinSlash_splitSlash]
    simp [normalizeDistributed, h]
  | none =>
    have hd : normalizeDistributed s = s := by simp [normalizeDistributed, h]
    rw [hd]
    cases h2 : splitSlash s.data with
    | nil => exact absurd h2 (splitSlash_ne_nil _)
    | cons seg rest =>
      by_cases hseg : seg = "src".data
      · exfalso
        have hjoin : s.data = joinSlash ("src".data :: rest) := by
          rw [← joinSlash_splitSlash s.data, h2, hseg]
        cases rest with
        | nil =>
          apply hs
          apply String.ext
          simp [joinSlash] at hjoin
          exact hjoin
        | cons t ts =>
          have : s.data = 's' :: 'r' :: 'c' :: '/' :: joinSlash (t :: ts) := by
            rw [hjoin]; rfl
          rw [this] at h
          simp [srcSlashTail] at h
      · simp [normalizeSpecRule, h2, hseg]

/-! ## Walk invariants: deduplication and parent-before-child -/

/-- Paths of the `processed` events of a trace. -/
def evProcessed (evs : List Ev) : List String :=
  evs.filterMap (fun e => match e with | .processed p => some p | _ => none)

/-- Paths of the `fetchedDir` events of a trace. -/
def evFetched (evs : List Ev) : List String :=
  evs.filterMap (fun e => match e with | .fetchedDir p => some p | _ => none)

/-- Paths of the `wroteFile` events of a trace. -/
def evWrote (evs : List Ev) : List String :=
  evs.filterMap (fun e => match e with | .wroteFile p => some p | _ => none)

theorem evProcessed_append (a b : List Ev) :
    evProcessed (a ++ b) = evProcessed a ++ evProcessed b := List.filterMap_append ..

theorem evFetched_append (a b : List Ev) :
    evFetched (a ++ b) = evFetched a ++ evFetched b := List.filterMap_append ..

theorem evWrote_append (a b : List Ev) :
    evWrote (a ++ b) = evWrote a ++ evWrote b := List.filterMap_append ..

mutual

/-- Well-formedness of a listing item relative to the raw path `P` of the
directory whose listing contains it: the item's raw path is
`joinPath P name` for a nonempty, slash-free name, recursively (this is
how the GitHub contents API reports paths). -/
def wfItem (P : String) (r : RawItem) : Bool :=
  match r with
  | .mk _t n p _c _s children =>
    p = joinPath P n && n ≠ "" && n.data.all (fun c => c ≠ '/') && wfListing p children

def wfListing (P : String) (l : List RawItem) : Bool :=
  match l with
  | [] => true
  | r :: rest => wfItem P r && wfListing P rest

end

/-- `p` was added to the (append-only) visited list strictly before `c`. -/
def Before (l : List String) (p c : String) : Prop :=
  p ∈ l ∧ c ∈ l ∧ l.indexOf p < l.indexOf c

instance (l : List String) (p c : String) : Decidable (Before l p c) := by
  unfold Before; infer_instance

theorem Before.append (l l₂ : List String) (p c : String) (h : Before l p c) :
    Before (l ++ l₂) p c := by
  obtain ⟨hp, hc, hlt⟩ := h
  exact ⟨List.mem_append_left _ hp, List.mem_append_left _ hc,
    by rw [List.indexOf_append_of_mem hp, List.indexOf_append_of_mem hc]; exact hlt⟩

theorem Before.append_fresh (l : List String) (p c : String)
    (hp : p ∈ l) (hc : c ∉ l) : Before (l ++ [c]) p c := by
  refine ⟨List.mem_append_left _ hp, List.mem_append_right _ (by simp), ?_⟩
  rw [List.indexOf_append_of_mem hp, List.indexOf_append_of_not_mem hc]
  calc l.indexOf p < l.length := List.indexOf_lt_length.mpr hp
    _ ≤ l.length + [c].indexOf c := Nat.le_add_right ..

/-- The state after the bookkeeping lines 146 and 173-179 for a fresh
directory entry (visited mark, `fetchedDir` event, parent record), before
the recursive fetch. -/
def dirStepState (r : RawItem) (st : CrawlState) : CrawlState :=
  let np := normalizeEngine r.path
  let st1 := { st with processed_dirs := st.processed_dirs ++ [np],
                       events := st.events ++ [Ev.processed np] }
  { st1 with dir_parents := st1.dir_parents ++ [(np, loopParentPath np)],
             events := st1.events ++ [Ev.fetchedDir np] }

/-- The state after the metadata writes for a directory entry (the
subdirectory's own `current_dir_files` record, then the entry's record at
lines 199-220), given the result `res` of the recursive fetch. -/
def dirStepFinal (r : RawItem) (res : CrawlState × List FileRec) : CrawlState :=
  let np := normalizeEngine r.path
  let stA := res.1
  let cdfChild := res.2
  let stB := { stA with metaWrites := stA.metaWrites ++
        (if cdfChild.isEmpty then []
         else [(currentDirMetaPath r.path, currentDirMetadata r.path cdfChild stA.dir_parents)]) }
  { stB with metaWrites := stB.metaWrites ++
        [(joinPath np (r.name ++ metaFileSuffix),
          dirMetadata r.name r.path np (loopParentPath np) (r.children.map parseItem) stB.dir_parents)] }

theorem walkItem_skip (cp : String) (r : RawItem) (st : CrawlState) (acc : List FileRec)
    (h : normalizeEngine r.path ∈ st.processed_dirs) :
    walkItem cp r st acc =
      ({ st with events := st.events ++ [Ev.skipped (normalizeEngine r.path)] }, acc) := by
  cases r with
  | mk t n p c sz children =>
    simp only [walkItem, RawItem.path] at h ⊢
    rw [if_pos h]

theorem walkItem_file (cp : String) (r : RawItem) (st : CrawlState) (acc : List FileRec)
    (h1 : normalizeEngine r.path ∉ st.processed_dirs) (h2 : r.type = "file") :
    walkItem cp r st acc =
      ({ st with processed_dirs := st.processed_dirs ++ [normalizeEngine r.path],
                 fileWrites := st.fileWrites ++ [(normalizeEngine r.path, r.content)],
                 events := st.events ++ [Ev.processed (normalizeEngine r.path)]
                   ++ [Ev.wroteFile (normalizeEngine r.path)] },
       acc ++ [{ name := r.name, path := normalizeEngine r.path, size := r.size }]) := by
  cases r with
  | mk t n p c sz children =>
    simp only [walkItem, RawItem.path, RawItem.type, RawItem.name, RawItem.content,
      RawItem.size] at h1 h2 ⊢
    rw [if_neg h1, h2]
    simp

theorem walkItem_dir (cp : String) (r : RawItem) (st : CrawlState) (acc : List FileRec)
    (h1 : normalizeEngine r.path ∉ st.processed_dirs) (h2 : r.type ≠ "file") :
    walkItem cp r st acc =
      (dirStepFinal r (walkListing r.path r.children (dirStepState r st) []), acc) := by
  cases r with
  | mk t n p c sz children =>
    simp only [walkItem, RawItem.path, RawItem.type, RawItem.name, RawItem.children,
      dirStepState, dirStepFinal] at h1 h2 ⊢
    rw [if_neg h1, if_neg h2, if_neg (by decide : ¬("dir" : String) = "file")]

theorem walkListing_nil (cp : String) (st : CrawlState) (acc : List FileRec) :
    walkListing cp [] st acc = (st, acc) := rfl

theorem walkListing_cons (cp : String) (r : RawItem) (rest : List RawItem)
    (st : CrawlState) (acc : List FileRec) :
    walkListing cp (r :: rest) st acc =
      walkListing cp rest (walkItem cp r st acc).1 (walkItem cp r st acc).2 := rfl

theorem dirStepFinal_processed (r : RawItem) (res : CrawlState × List FileRec) :
    (dirStepFinal r res).processed_dirs = res.1.processed_dirs := rfl

theorem dirStepFinal_events (r : RawItem) (res : CrawlState × List FileRec) :
    (dirStepFinal r res).events = res.1.events := rfl

theorem dirStepFinal_dir_parents (r : RawItem) (res : CrawlState × List FileRec) :
    (dirStepFinal r res).dir_parents = res.1.dir_parents := rfl

theorem dirStepFinal_fileWrites (r : RawItem) (res : CrawlState × List FileRec) :
    (dirStepFinal r res).fileWrites = res.1.fileWrites := rfl

theorem dirStepState_processed (r : RawItem) (st : CrawlState) :
    (dirStepState r st).processed_dirs = st.processed_dirs ++ [normalizeEngine r.path] := rfl

theorem dirStepState_events (r : RawItem) (st : CrawlState) :
    (dirStepState r st).events =
      st.events ++ [Ev.processed (normalizeEngine r.path), Ev.fetchedDir (normalizeEngine r.path)] := by
  simp [dirStepState]

theorem dirStepState_dir_parents (r : RawItem) (st : CrawlState) :
    (dirStepState r st).dir_parents =
      st.dir_parents ++ [(normalizeEngine r.path, loopParentPath (normalizeEngine r.path))] := rfl

theorem evProcessed_cons_processed (q : String) (evs : List Ev) :
    evProcessed (Ev.processed q :: evs) = q :: evProcessed evs := rfl

theorem evProcessed_cons_skipped (q : String) (evs : List Ev) :
    evProcessed (Ev.skipped q :: evs) = evProcessed evs := rfl

theorem evProcessed_cons_fetched (q : String) (evs : List Ev) :
    evProcessed (Ev.fetchedDir q :: evs) = evProcessed evs := rfl

theorem evProcessed_cons_wrote (q : String) (evs : List Ev) :
    evProcessed (Ev.wroteFile q :: evs) = evProcessed evs := rfl

theorem evFetched_cons_processed (q : String) (evs : List Ev) :
    evFetched (Ev.processed q :: evs) = evFetched evs := rfl

theorem evFetched_cons_fetched (q : String) (evs : List Ev) :
    evFetched (Ev.fetchedDir q :: evs) = q :: evFetched evs := rfl

theorem evWrote_cons_processed (q : String) (evs : List Ev) :
    evWrote (Ev.processed q :: evs) = evWrote evs := rfl

theorem evWrote_cons_fetched (q : String) (evs : List Ev) :
    evWrote (Ev.fetchedDir q :: evs) = evWrote evs := rfl

theorem evWrote_cons_wrote (q : String) (evs : List Ev) :
    evWrote (Ev.wroteFile q :: evs) = q :: evWrote evs := rfl

theorem sizeOf_children_lt (r : RawItem) : sizeOf r.children < sizeOf r := by
  cases r with
  | mk t n p c sz children => simp [RawItem.children]

mutual

/-- State evolution of one loop iteration: `processed_dirs`, `dir_parents`
and the event trace grow append-only; the newly processed paths are
exactly the new `processed` events, are pairwise distinct and fresh with
respect to the incoming visited set; and the new `fetchedDir`/`wroteFile`
events are a sub-sequence of the newly processed paths (one directory
fetch / file write happens only for a freshly processed entry). -/
theorem walkItem_delta (cp : String) (r : RawItem) (st : CrawlState) (acc : List FileRec) :
    ∃ dp de dd,
      (walkItem cp r st acc).1.processed_dirs = st.processed_dirs ++ dp ∧
      (walkItem cp r st acc).1.events = st.events ++ de ∧
      (walkItem cp r st acc).1.dir_parents = st.dir_parents ++ dd ∧
      evProcessed de = dp ∧
      dp.Nodup ∧
      (∀ q ∈ dp, q ∉ st.processed_dirs) ∧
      List.Sublist (evFetched de) dp ∧
      List.Sublist (evWrote de) dp := by
  by_cases hmem : normalizeEngine r.path ∈ st.processed_dirs
  · rw [walkItem_skip cp r st acc hmem]
    exact ⟨[], [Ev.skipped (normalizeEngine r.path)], [], by simp, rfl, by simp, rfl,
      by simp, by simp, by simp [evFetched], by simp [evWrote]⟩
  · by_cases htype : r.type = "file"
    · rw [walkItem_file cp r st acc hmem htype]
      refine ⟨[normalizeEngine r.path],
        [Ev.processed (normalizeEngine r.path), Ev.wroteFile (normalizeEngine r.path)], [],
        rfl, by simp, by simp, rfl, by simp, by simpa using hmem, ?_, ?_⟩
      · simp [evFetched, evWrote, evFetched_cons_processed]
      · rw [evWrote_cons_processed, evWrote_cons_wrote]
        simp [evWrote]
    · rw [walkItem_dir cp r st acc hmem htype]
      obtain ⟨dp', de', dd', hproc, hev, hdir, hevp, hnd, hfresh, hfet, hwro⟩ :=
        walkListing_delta r.path r.children (dirStepState r st) []
      refine ⟨normalizeEngine r.path :: dp',
        Ev.processed (normalizeEngine r.path) :: Ev.fetchedDir (normalizeEngine r.path) :: de',
        (normalizeEngine r.path, loopParentPath (normalizeEngine r.path)) :: dd',
        ?_, ?_, ?_, ?_, ?_, ?_, ?_, ?_⟩
      · rw [dirStepFinal_processed, hproc, dirStepState_processed, List.append_assoc]
        rfl
      · rw [dirStepFinal_events, hev, dirStepState_events, List.append_assoc]
        rfl
      · rw [dirStepFinal_dir_parents, hdir, dirStepState_dir_parents, List.append_assoc]
        rfl
      · rw [evProcessed_cons_processed, evProcessed_cons_fetched, hevp]
      · refine List.nodup_cons.mpr ⟨fun hin => ?_, hnd⟩
        exact (hfresh _ hin) (by rw [dirStepState_processed]; exact List.mem_append_right _ (by simp))
      · intro q hq
        rcases List.mem_cons.mp hq with h | h
        · rw [h]; exact hmem
        · intro hq2
          exact hfresh q h (by rw [dirStepState_processed]; exact List.mem_append_left _ hq2)
      · rw [evFetched_cons_processed, evFetched_cons_fetched]
        exact List.Sublist.cons₂ _ hfet
      · rw [evWrote_cons_processed, evWrote_cons_fetched]
        exact List.Sublist.cons _ hwro
termination_by sizeOf r
decreasing_by exact sizeOf_children_lt r

theorem walkListing_delta (cp : String) (l : List RawItem) (st : CrawlState) (acc : List FileRec) :
    ∃ dp de dd,
      (walkListing cp l st acc).1.processed_dirs = st.processed_dirs ++ dp ∧
      (walkListing cp l st acc).1.events = st.events ++ de ∧
      (walkListing cp l st acc).1.dir_parents = st.dir_parents ++ dd ∧
      evProcessed de = dp ∧
      dp.Nodup ∧
      (∀ q ∈ dp, q ∉ st.processed_dirs) ∧
      List.Sublist (evFetched de) dp ∧
      List.Sublist (evWrote de) dp := by
  cases l with
  | nil =>
    rw [walkListing_nil]
    exact ⟨[], [], [], by simp, by simp, by simp, rfl, by simp, by simp, by simp [evFetched],
      by simp [evWrote]⟩
  | cons r rest =>
    rw [walkListing_cons]
    obtain ⟨dp₁, de₁, dd₁, h1p, h1e, h1d, h1evp, h1nd, h1f, h1fet, h1wro⟩ :=
      walkItem_delta cp r st acc
    obtain ⟨dp₂, de₂, dd₂, h2p, h2e, h2d, h2evp, h2nd, h2f, h2fet, h2wro⟩ :=
      walkListing_delta cp rest (walkItem cp r st acc).1 (walkItem cp r st acc).2
    refine ⟨dp₁ ++ dp₂, de₁ ++ de₂, dd₁ ++ dd₂, ?_, ?_, ?_, ?_, ?_, ?_, ?_, ?_⟩
    · rw [h2p, h1p, List.append_assoc]
    · rw [h2e, h1e, List.append_assoc]
    · rw [h2d, h1d, List.append_assoc]
    · rw [evProcessed_append, h1evp, h2evp]
    · refine List.Nodup.append h1nd h2nd ?_
      intro a ha1 ha2
      exact h2f a ha2 (by rw [h1p]; exact List.mem_append_right _ ha1)
    · intro q hq
      rcases List.mem_append.mp hq with h | h
      · exact h1f q h
      · intro hmem
        exact h2f q h (by rw [h1p]; exact List.mem_append_left _ hmem)
    · rw [evFetched_append]
      exact List.Sublist.append h1fet h2fet
    · rw [evWrote_append]
      exact List.Sublist.append h1wro h2wro
termination_by sizeOf l
decreasing_by
  all_goals simp_wf
  all_goals omega

end

theorem fetchPageWalk_processed (cp : String) (l : List RawItem) (st : CrawlState) :
    (fetchPageWalk cp l st).1.processed_dirs = (walkListing cp l st []).1.processed_dirs := rfl

theorem fetchPageWalk_dir_parents (cp : String) (l : List RawItem) (st : CrawlState) :
    (fetchPageWalk cp l st).1.dir_parents = (walkListing cp l st []).1.dir_parents := rfl

theorem fetchPageWalk_events (cp : String) (l : List RawItem) (st : CrawlState) :
    (fetchPageWalk cp l st).1.events = (walkListing cp l st []).1.events := rfl

theorem fetchPageWalk_fileWrites (cp : String) (l : List RawItem) (st : CrawlState) :
    (fetchPageWalk cp l st).1.fileWrites = (walkListing cp l st []).1.fileWrites := rfl

/-- Every recorded parent pointer is either the root marker `""` or points
to a directory that was marked visited strictly before its child. -/
def GoodState (st : CrawlState) : Prop :=
  ∀ c p, (c, p) ∈ st.dir_parents → p = "" ∨ Before st.processed_dirs p c

/-- The walk is only entered for a directory that is the crawl root
(normalizing to `""`) or has already been marked visited. -/
def PreCond (cp : String) (st : CrawlState) : Prop :=
  normalizeEngine cp = "" ∨ normalizeEngine cp ∈ st.processed_dirs

theorem wfItem_eq (P : String) (r : RawItem) :
    wfItem P r =
      (decide (r.path = joinPath P r.name) && decide (r.name ≠ "")
        && r.name.data.all (fun c => decide (c ≠ '/')) && wfListing r.path r.children) := by
  cases r
  rfl

mutual

/-- Parent-before-child is preserved by one loop iteration on well-formed
input. -/
theorem walkItem_good (cp : String) (r : RawItem) (st : CrawlState) (acc : List FileRec)
    (hwf : wfItem cp r = true) (hpre : PreCond cp st) (hgood : GoodState st) :
    GoodState (walkItem cp r st acc).1 := by
  rw [wfItem_eq] at hwf
  simp only [Bool.and_eq_true, decide_eq_true_eq, List.all_eq_true] at hwf
  obtain ⟨⟨⟨hpath, hn⟩, hfree⟩, hwfc⟩ := hwf
  have hfree' : ∀ ch ∈ r.name.data, ch ≠ '/' := fun ch hch => by
    simpa using hfree ch hch
  by_cases hmem : normalizeEngine r.path ∈ st.processed_dirs
  · rw [walkItem_skip cp _ st acc hmem]
    intro c q hcq
    exact hgood c q hcq
  · by_cases htype : r.type = "file"
    · rw [walkItem_file cp _ st acc hmem htype]
      intro c q hcq
      rcases hgood c q hcq with h | h
      · exact Or.inl h
      · exact Or.inr (Before.append _ _ _ _ h)
    · rw [walkItem_dir cp _ st acc hmem htype]
      have hparent := loopParentPath_join cp r.name hn hfree'
      rw [← hpath] at hparent
      have hgood2 : GoodState (dirStepState r st) := by
        intro c q hcq
        rw [dirStepState_dir_parents] at hcq
        rcases List.mem_append.mp hcq with h | h
        · rcases hgood c q h with h' | h'
          · exact Or.inl h'
          · exact Or.inr (by rw [dirStepState_processed]; exact Before.append _ _ _ _ h')
        · simp only [List.mem_singleton, Prod.mk.injEq] at h
          obtain ⟨hc, hq⟩ := h
          rcases hparent with hpp | hpp
          · exact Or.inl (hq.trans hpp)
          · rcases hpre with hroot | hvis
            · exact Or.inl (by rw [hq, hpp, hroot])
            · refine Or.inr ?_
              rw [dirStepState_processed, hq, hpp, hc]
              exact Before.append_fresh _ _ _ hvis hmem
      have hpre2 : PreCond r.path (dirStepState r st) := by
        refine Or.inr ?_
        rw [dirStepState_processed]
        exact List.mem_append_right _ (by simp)
      exact walkListing_good r.path r.children (dirStepState r st) [] hwfc hpre2 hgood2
termination_by sizeOf r
decreasing_by exact sizeOf_children_lt r

/-- Parent-before-child is preserved by the loop over a listing on
well-formed input. -/
theorem walkListing_good (cp : String) (l : List RawItem) (st : CrawlState) (acc : List FileRec)
    (hwf : wfListing cp l = true) (hpre : PreCond cp st) (hgood : GoodState st) :
    GoodState (walkListing cp l st acc).1 := by
  cases l with
  | nil =>
    rw [walkListing_nil]
    exact hgood
  | cons r rest =>
    rw [walkListing_cons]
    simp only [wfListing, Bool.and_eq_true] at hwf
    have hg1 := walkItem_good cp r st acc hwf.1 hpre hgood
    obtain ⟨dp₁, de₁, dd₁, h1p, _⟩ := walkItem_delta cp r st acc
    have hpre1 : PreCond cp (walkItem cp r st acc).1 := by
      rcases hpre with h | h
      · exact Or.inl h
      · exact Or.inr (by rw [h1p]; exact List.mem_append_left _ h)
    exact walkListing_good cp rest (walkItem cp r st acc).1 (walkItem cp r st acc).2
      hwf.2 hpre1 hg1
termination_by sizeOf l
decreasing_by
  all_goals simp_wf
  all_goals subst_vars
  all_goals simp only [List.cons.sizeOf_spec]
  all_goals omega

end

/-! ## Shared helpers for the claim theorems -/

theorem parseItem_type_file (r : RawItem) :
    ((parseItem r).type = "file") = (r.type = "file") := by
  by_cases h : r.type = "file"
  · simp [parseItem, h]
  · simp [parseItem, h]

/-- Filtering the parsed items of a listing for files matches filtering the
raw listing for `type == 'file'` entries. -/
theorem parse_filter_file (children : List RawItem) :
    (children.map parseItem).filter (fun f => f.type = "file")
      = (children.filter (fun r => r.type = "file")).map parseItem := by
  induction children with
  | nil => rfl
  | cons r rest ih =>
    by_cases h : r.type = "file" <;> simp [parseItem, h, ih]

/-- Iterating a JSON object yields its keys (strings), none of which is a
dict, so the item parser of lines 106-116 keeps nothing. -/
theorem parseRespItems_keys (fields : List (String × Json)) :
    parseRespItems (fields.map (fun f => Json.str f.1)) = [] := by
  induction fields with
  | nil => rfl
  | cons f rest ih => exact ih

/-- With a falsy token every download attempt fails, and the loop still
visits every server. -/
theorem downloadSourcesLoop_none (servers : List Server) (existing : String → Bool)
    (trees : String → List GhEntry) :
    (downloadSourcesLoop none servers existing trees).success = 0 ∧
    (downloadSourcesLoop none servers existing trees).success
      + (downloadSourcesLoop none servers existing trees).skip
      + (downloadSourcesLoop none servers existing trees).error = servers.length := by
  induction servers with
  | nil => simp [downloadSourcesLoop]
  | cons s rest ih =>
    simp only [downloadSourcesLoop]
    by_cases h1 : s.github_url = ""
    · simp only [if_pos h1, List.length_cons]
      exact ⟨ih.1, by omega⟩
    · simp only [if_neg h1]
      by_cases h2 : existing s.name
      · simp only [if_pos h2, List.length_cons]
        exact ⟨ih.1, by omega⟩
      · simp only [if_neg h2]
        have hd : (downloadGithubRepo none s.github_url (trees s.github_url)).1 = false := rfl
        rw [hd]
        simp only [if_neg (by simp : ¬(false = true)), List.length_cons]
        exact ⟨ih.1, by omega⟩

/-! ## Scenario inputs -/

/-- Scenario A of the spec (§8): a root listing with one directory entry
`src`, whose listing holds one 10-byte file `src/a.py`. -/
def scenarioA : List RawItem :=
  [RawItem.mk "dir" "src" "src" "" 0
    [RawItem.mk "file" "a.py" "src/a.py" "print(1)" 10 []]]

/-- Scenario B of the spec (§8): two directory entries whose raw paths
`src/pkg` and `pkg` normalize to the same `pkg`. -/
def scenarioB : List RawItem :=
  [RawItem.mk "dir" "pkg" "src/pkg" "" 0
    [RawItem.mk "file" "m.py" "src/pkg/m.py" "x" 3 []],
   RawItem.mk "dir" "pkg" "pkg" "" 0
    [RawItem.mk "file" "other.py" "pkg/other.py" "y" 4 []]]

/-- A well-formed two-level tree under the crawl root `src`, used to
witness the parent-before-child claim. -/
def scenarioNested : List RawItem :=
  [RawItem.mk "dir" "pkg" "src/pkg" "" 0
    [RawItem.mk "dir" "deep" "src/pkg/deep" "" 0 [],
     RawItem.mk "file" "m.py" "src/pkg/m.py" "x" 3 []]]

/-- The response of a fetch whose body is not valid JSON
(`response.json()` raises). -/
def malformedResp : Response := { status := 200, body := .error () }

/-! ## Claim theorems -/

/-- C1 (counterexample): walking Scenario A persists two metadata records
for the root (the inner `current_dir_files` record and the `src`-entry
record, at the same path), and both carry `subdirectories = [""]` — never
the empty list the claim requires.  The `src` entry normalizes to `""`
whose computed parent is also `""`, so `dir_parents` maps `""` to `""` and
the root lists itself as a subdirectory. -/
theorem scenarioA_subdirectories_ne_empty :
    ((fetchPageWalk "" scenarioA initState).1.metaWrites.map
        (fun w => w.2.subdirectories)) = [[""], [""]] ∧
    ([""] : List String) ≠ [] := by
  exact ⟨rfl, by decide⟩

/-- C1 (amended): walking Scenario A writes the file at
`<output_root>/a.py` and persists the root metadata record (twice, at
`src.modelcontextprotocol.io.json`) with `total_files = 1`,
`total_size = 10`, `parent_directory = none` — and
`subdirectories = [""]`, the root's own normalized path. -/
theorem scenarioA_walk :
    (fetchPageWalk "" scenarioA initState).1.fileWrites = [("a.py", "print(1)")] ∧
    (fetchPageWalk "" scenarioA initState).1.metaWrites =
      [("src.modelcontextprotocol.io.json",
        { name := "src", path := "", url := urlStem ++ "src",
          files := [{ name := "a.py", path := "a.py", size := 10 }],
          parent_directory := none, subdirectories := [""],
          total_files := 1, total_size := 10 }),
       ("src.modelcontextprotocol.io.json",
        { name := "src", path := "", url := urlStem ++ "src",
          files := [{ name := "a.py", path := "a.py", size := 10 }],
          parent_directory := none, subdirectories := [""],
          total_files := 1, total_size := 10 })] := by
  exact ⟨rfl, rfl⟩

/-- C2: rollup correctness.  The metadata record built for a directory
entry (lines 199-213) counts exactly the `type == 'file'` entries of that
directory's own listing and sums exactly their sizes; the record built
from `current_dir_files` (lines 228-242) counts exactly the collected
direct files and sums their sizes.  Neither formula mentions the contents
of subdirectories: rollups are non-recursive. -/
theorem rollup_totals (itemName itemPath np pp cp : String) (children : List RawItem)
    (dp dpc : List (String × String)) (cdf : List FileRec) :
    ((dirMetadata itemName itemPath np pp (children.map parseItem) dp).total_files
        = (children.filter (fun r => r.type = "file")).length ∧
      (dirMetadata itemName itemPath np pp (children.map parseItem) dp).total_size
        = ((children.filter (fun r => r.type = "file")).map (fun r => r.size)).sum) ∧
    ((currentDirMetadata cp cdf dpc).total_files = cdf.length ∧
      (currentDirMetadata cp cdf dpc).total_size = (cdf.map (fun f => f.size)).sum) := by
  refine ⟨⟨?_, ?_⟩, rfl, rfl⟩
  · show ((children.map parseItem).filter (fun f => f.type = "file")
        |>.map (fun f => ({ name := f.name, path := normalizeEngine f.path, size := f.size } : FileRec))).length
      = (children.filter (fun r => r.type = "file")).length
    rw [parse_filter_file]
    simp
  · show (((children.map parseItem).filter (fun f => f.type = "file")
        |>.map (fun f => ({ name := f.name, path := normalizeEngine f.path, size := f.size } : FileRec))).map
          (fun f => f.size)).sum
      = ((children.filter (fun r => r.type = "file")).map (fun r => r.size)).sum
    rw [parse_filter_file]
    simp only [List.map_map]
    congr 1

/-- C3: first-processed wins.  In a full crawl from the empty session
state the processed normalized paths are pairwise distinct, and so are the
directory-fetch paths and the file-write paths (no second fetch, no second
write for a duplicate).  Moreover an entry whose normalized path is
already visited is skipped entirely: the only effect is a `skipped` log
event — state (writes, visited set, parent index, accumulated file list)
is unchanged, so file lists are never merged. -/
theorem dedup_first_wins (cp : String) (l : List RawItem) :
    ((evProcessed (fetchPageWalk cp l initState).1.events).Nodup ∧
      (evFetched (fetchPageWalk cp l initState).1.events).Nodup ∧
      (evWrote (fetchPageWalk cp l initState).1.events).Nodup) ∧
    (∀ (cp' : String) (r : RawItem) (st : CrawlState) (acc : List FileRec),
      normalizeEngine r.path ∈ st.processed_dirs →
      walkItem cp' r st acc =
        ({ st with events := st.events ++ [Ev.skipped (normalizeEngine r.path)] }, acc)) := by
  constructor
  · obtain ⟨dp, de, dd, hp, he, hd, hevp, hnd, hfresh, hfet, hwro⟩ :=
      walkListing_delta cp l initState []
    rw [fetchPageWalk_events, he]
    have hde : evProcessed de = dp := hevp
    simp only [initState, List.nil_append]
    refine ⟨by rw [hde]; exact hnd, ?_, ?_⟩
    · exact List.Nodup.sublist hfet hnd
    · exact List.Nodup.sublist hwro hnd
  · intro cp' r st acc h
    exact walkItem_skip cp' r st acc h

/-- C3 witness: the Nodup conclusions hold for Scenario B (two raw paths
collapsing to `pkg`), and the skip equation fires at a concrete state that
has already visited `pkg`. -/
theorem dedup_first_wins_witness :
    ((evProcessed (fetchPageWalk "" scenarioB initState).1.events).Nodup ∧
      (evFetched (fetchPageWalk "" scenarioB initState).1.events).Nodup ∧
      (evWrote (fetchPageWalk "" scenarioB initState).1.events).Nodup) ∧
    walkItem "" (RawItem.mk "dir" "pkg" "pkg" "" 0 [])
        { processed_dirs := ["pkg"], dir_parents := [], fileWrites := [],
          metaWrites := [], events := [] } [] =
      ({ processed_dirs := ["pkg"], dir_parents := [], fileWrites := [], metaWrites := [],
          events := [] ++ [Ev.skipped (normalizeEngine
            (RawItem.path (RawItem.mk "dir" "pkg" "pkg" "" 0 [])))] }, []) := by
  refine ⟨(dedup_first_wins "" scenarioB).1, ?_⟩
  exact (dedup_first_wins "" scenarioB).2 ""
    (RawItem.mk "dir" "pkg" "pkg" "" 0 [])
    { processed_dirs := ["pkg"], dir_parents := [], fileWrites := [],
      metaWrites := [], events := [] } [] (by decide)

/-- C4: parent-before-child.  For a well-formed crawl (every entry's raw
path extends its directory's raw path by one slash-free name, as the
GitHub contents API guarantees) started from a root normalizing to `""`
on a fresh session, every pair recorded in `dir_parents` has either the
empty (root) parent or a parent that was appended to `processed_dirs`
strictly before the child. -/
theorem parent_before_child (cp : String) (l : List RawItem)
    (hwf : wfListing cp l = true) (hroot : normalizeEngine cp = "") :
    ∀ c p, (c, p) ∈ (fetchPageWalk cp l initState).1.dir_parents →
      p = "" ∨ Before (fetchPageWalk cp l initState).1.processed_dirs p c := by
  have hg : GoodState (walkListing cp l initState []).1 :=
    walkListing_good cp l initState [] hwf (Or.inl hroot)
      (fun c p h => absurd h (by simp [initState]))
  intro c p h
  rw [fetchPageWalk_dir_parents] at h
  rw [fetchPageWalk_processed]
  exact hg c p h

/-- C4 witness: on the nested scenario crawled from root `src`, the
recorded pair maps `pkg/deep` to parent `pkg`, and `pkg` was indeed
visited strictly before `pkg/deep`. -/
theorem parent_before_child_witness :
    wfListing "src" scenarioNested = true ∧
    normalizeEngine "src" = "" ∧
    ("pkg" = "" ∨ Before (fetchPageWalk "src" scenarioNested initState).1.processed_dirs
      "pkg" "pkg/deep") := by
  refine ⟨by decide, by decide, ?_⟩
  exact parent_before_child "src" scenarioNested (by decide) (by decide)
    "pkg/deep" "pkg" (by decide)

/-- C5 (counterexample): the two `_normalize_path` variants do not both
implement the spec rule: on the bare root path `"src"` the
`distributed_crawler.py` variant returns `"src"` while the rule (and the
`crawler_engine.py` variant) yield `""`. -/
theorem normalize_variants_counterexample :
    normalizeDistributed "src" = "src" ∧ normalizeSpecRule "src" "src" = "" ∧
    ("src" : String) ≠ "" := by
  exact ⟨rfl, rfl, by decide⟩

/-- C5 (amended): path normalization is total (both variants are plain
Lean functions on all of `String`, mirroring code that cannot raise); the
`crawler_engine.py` variant satisfies the spec rule on every string, and
the `distributed_crawler.py` variant satisfies it on every string except
the bare marker `"src"`, which it maps to itself instead of `""`. -/
theorem normalize_variants_spec (s : String) :
    normalizeEngine s = normalizeSpecRule "src" s ∧
    (s ≠ "src" → normalizeDistributed s = normalizeSpecRule "src" s) ∧
    normalizeDistributed "src" = "src" :=
  ⟨normalizeEngine_eq_specRule s, normalizeDistributed_eq_specRule s, rfl⟩

/-- C5 witness: the amended statement applied at `"src/a.py"`, whose
side-condition `"src/a.py" ≠ "src"` holds. -/
theorem normalize_variants_spec_witness :
    (normalizeEngine "src/a.py" = normalizeSpecRule "src" "src/a.py" ∧
      ("src/a.py" ≠ "src" → normalizeDistributed "src/a.py" = normalizeSpecRule "src" "src/a.py") ∧
      normalizeDistributed "src" = "src") ∧
    normalizeDistributed "src/a.py" = normalizeSpecRule "src" "src/a.py" := by
  refine ⟨normalize_variants_spec "src/a.py", ?_⟩
  exact (normalize_variants_spec "src/a.py").2.1 (by decide)

/-- C6: retry bound.  Under the default policy (no `error_handling` config:
`max_retries = 3`, `retry_delay = 5`), a fetch that fails on every attempt
is invoked exactly 3 times, with the 5-second sleep between consecutive
attempts, and the final attempt's failure is propagated (`some (.error
(es 2))` is the raised outcome of the third invocation, not swallowed). -/
theorem retry_bound {α : Type} (fetch : Nat → Except PyExc α) (es : Nat → PyExc)
    (hf : ∀ n, fetch n = .error (es n)) :
    fetchPageWithRetry none fetch = (some (.error (es 2)), 3, [5, 5]) := by
  rw [show fetchPageWithRetry none fetch = retryGo fetch 5 [0, 1, 2] from rfl]
  simp [retryGo, hf 0, hf 1, hf 2]

/-- C6 witness: retry bound at a concrete always-failing fetch. -/
theorem retry_bound_witness :
    fetchPageWithRetry none
        (fun _ : Nat => (.error (.netError "connection refused") : Except PyExc Unit))
      = (some (.error (.netError "connection refused")), 3, [5, 5]) :=
  retry_bound _ (fun _ => .netError "connection refused") (fun _ => rfl)

/-- C7 (counterexample): a malformed payload (undecodable body) does not
stop the retry loop: with every attempt returning the malformed response,
`_fetch_page_with_retry` under the default policy invokes `_fetch_page`
3 times — not the single, unretried invocation the claim requires. -/
theorem malformed_retried_counterexample :
    (fetchPageWithRetry none
        (fun _ : Nat => fetchPageResp (.ok malformedResp) (fun _ => .ok ()))).2.1 = 3 ∧
    (3 : Nat) ≠ 1 := by
  exact ⟨rfl, by decide⟩

/-- C7 (amended): a malformed payload makes that `_fetch_page` call fail
with `CrawlExhausted` (the blanket handler wraps the JSON decode error),
and the retry loop does not distinguish failure causes: it re-invokes the
fetch up to `maxRetries = 3` total attempts with the configured delay, and
then propagates the `CrawlExhausted` failure to the caller.  This holds
whatever the per-item processing would do (it is never reached). -/
theorem malformed_retried_amended (proc : List RespItem → Except PyExc Unit) :
    fetchPageResp (.ok malformedResp) proc
      = .error (.crawlExhausted ("抓取失败: " ++ excMessage .jsonDecodeError)) ∧
    fetchPageWithRetry none (fun _ : Nat => fetchPageResp (.ok malformedResp) proc)
      = (some (.error (.crawlExhausted ("抓取失败: " ++ excMessage .jsonDecodeError))), 3, [5, 5]) := by
  exact ⟨rfl, rfl⟩

/-- C8 (counterexample): a directory-listing fetch whose decoded payload
is a JSON object (not a list of entry objects) does not raise: iterating
the object yields its keys, no key is a dict, so the walker returns
`ok (some [])` — a directory with zero children. -/
theorem nonlist_payload_counterexample :
    fetchPageResp
        (.ok { status := 200, body := .ok (Json.obj [("message", Json.str "Not Found")]) })
        (fun _ => .ok ())
      = .ok (some []) := rfl

/-- C8 (amended): a truthy JSON-object payload is iterated like any
Python iterable — its keys are strings, none survives the
`isinstance(item, dict)` filter — and the fetch succeeds with zero
entries rather than raising; only a truthy non-iterable payload (e.g. a
non-zero number) raises, via `TypeError` wrapped into `CrawlExhausted`. -/
theorem nonlist_payload_amended (fields : List (String × Json))
    (proc : List RespItem → Except PyExc Unit)
    (hne : fields ≠ []) (hproc : proc [] = .ok ()) :
    fetchPageResp (.ok { status := 200, body := .ok (Json.obj fields) }) proc
      = .ok (some []) ∧
    fetchPageResp (.ok { status := 200, body := .ok (Json.num 5) }) proc
      = .error (.crawlExhausted ("抓取失败: " ++ excMessage .typeError)) := by
  constructor
  · have htr : (Json.obj fields).truthy = true := by
      cases fields with
      | nil => exact absurd rfl hne
      | cons f rest => rfl
    simp only [fetchPageResp, fetchPageBody, wrapExhausted, htr, pyIter]
    simp only [parseRespItems_keys, hproc]
    rfl
  · rfl

/-- C8 witness: the amended statement at a concrete GitHub-style error
object and the processing that does nothing on an empty item list. -/
theorem nonlist_payload_amended_witness :
    (fetchPageResp
        (.ok { status := 200, body := .ok (Json.obj [("message", Json.str "Bad credentials")]) })
        (fun _ => .ok ())
      = .ok (some []) ∧
    fetchPageResp (.ok { status := 200, body := .ok (Json.num 5) }) (fun _ => .ok ())
      = .error (.crawlExhausted ("抓取失败: " ++ excMessage .typeError))) :=
  nonlist_payload_amended [("message", Json.str "Bad credentials")] (fun _ => .ok ())
    (List.cons_ne_nil _ _) rfl

/-- C9: a missing auth token degrades gracefully.  With no `GITHUB_TOKEN`
in the environment, `download_github_repo` returns the failure indication
`false` having written nothing and issued zero HTTP requests; the
per-source loop still visits every server (the counters add up to the
full server count, with zero successes) instead of crashing; and the
crawler's request-header construction simply omits the `Authorization`
header. -/
theorem missing_token_graceful (repoUrl : String) (tree : List GhEntry)
    (servers : List Server) (existing : String → Bool) (trees : String → List GhEntry)
    (headers : List (String × String)) :
    downloadGithubRepo none repoUrl tree = (false, [], 0) ∧
    ((downloadSourcesLoop none servers existing trees).success = 0 ∧
      (downloadSourcesLoop none servers existing trees).success
        + (downloadSourcesLoop none servers existing trees).skip
        + (downloadSourcesLoop none servers existing trees).error = servers.length) ∧
    applyAuthHeader headers none = headers := by
  exact ⟨rfl, downloadSourcesLoop_none servers existing trees, rfl⟩

/-- C10: every failure of `_fetch_page` reaches the caller as the
distinguished `CrawlExhausted` exception, whatever the underlying cause
(request exception, HTTP 403 or other error status, JSON decode failure,
or any exception of the per-item processing): the blanket handler at
lines 252-253 re-wraps them all. -/
theorem fetch_page_errors_exhausted (netResp : Except PyExc Response)
    (proc : List RespItem → Except PyExc Unit) (e : PyExc)
    (h : fetchPageResp netResp proc = .error e) : e.isCrawlExhausted = true := by
  unfold fetchPageResp at h
  cases hb : fetchPageBody netResp proc with
  | ok v =>
    rw [hb] at h
    exact absurd h (by simp [wrapExhausted])
  | error e' =>
    rw [hb] at h
    simp only [wrapExhausted, Except.error.injEq] at h
    rw [← h]
    rfl

/-- C10 witness: a network failure of `session.get` surfaces as
`CrawlExhausted`. -/
theorem fetch_page_errors_exhausted_witness :
    (PyExc.crawlExhausted ("抓取失败: connection reset")).isCrawlExhausted = true :=
  fetch_page_errors_exhausted (.error (.netError "connection reset")) (fun _ => .ok ())
    (.crawlExhausted ("抓取失败: connection reset")) rfl

end Mcpc
